import Mathlib

set_option autoImplicit false

/-!
Verification of the fosite OAuth2 authorize endpoint (authorize.go).

The embedding follows the Go source closely:
* `net/url`'s `URL` is a record of its components; `URL.render` models
  `URL.String()` for the URL shapes that occur here.
* The external library functions `url.Parse`, `url.QueryUnescape` and
  `govalidator.IsRequestURL` are abstracted into a `URLLib` record;
  theorems quantify over an arbitrary library, and a small concrete
  instance (`testLib`) is provided so that statements can be evaluated
  on concrete inputs.
* `url.Values` / `http.Header` (`map[string][]string` in Go) are
  association lists with distinct keys; `Values.add`, `Values.set`,
  `Values.get`, `Values.encode` and `parseQuery` model the corresponding
  Go operations (percent-escaping is omitted: no input used here needs
  escaping).
* String splitting and comparison are implemented structurally on
  character lists so that every definition evaluates inside the kernel.
-/

/-- Split a character list on every occurrence of a separator character;
models Go's `strings.Split` with a one-character separator. -/
def splitChar (c : Char) : List Char → List (List Char)
  | [] => [[]]
  | x :: xs =>
    let r := splitChar c xs
    if x = c then [] :: r
    else
      match r with
      | [] => [[x]]
      | y :: ys => (x :: y) :: ys

/-- Cut a character list at the first occurrence of a character; models
Go's `strings.Cut`: the part before, and the part after when found. -/
def cutChar (c : Char) : List Char → List Char × Option (List Char)
  | [] => ([], none)
  | x :: xs =>
    if x = c then ([], some xs)
    else
      let r := cutChar c xs
      (x :: r.1, r.2)

/-- Byte-lexicographic string order used by Go's `sort.Strings`
(restricted to the code-point order, which agrees on ASCII). -/
def charListLe : List Char → List Char → Bool
  | [], _ => true
  | _ :: _, [] => false
  | x :: xs, y :: ys => if x = y then charListLe xs ys else decide (x < y)

/-- Join strings with `&`, as `url.Values.Encode` does. -/
def joinAmp : List String → String
  | [] => ""
  | [x] => x
  | x :: xs => x ++ "&" ++ joinAmp xs

/-- Model of Go's `url.URL` restricted to the components the code reads
or writes: scheme, host, path, raw query and fragment. -/
structure URL where
  scheme : String
  host : String
  path : String
  rawQuery : String
  fragment : String
deriving DecidableEq, Repr

/-- Models `url.URL.String()` for URLs made of the components above:
`scheme://host/path?rawQuery#fragment`, each optional part rendered only
when non-empty. -/
def URL.render (u : URL) : String :=
  (if u.scheme = "" then "" else u.scheme ++ ":") ++
  (if u.host = "" then "" else "//" ++ u.host) ++
  u.path ++
  (if u.rawQuery = "" then "" else "?" ++ u.rawQuery) ++
  (if u.fragment = "" then "" else "#" ++ u.fragment)

/-- Abstraction of the external URL library used by authorize.go:
`url.Parse` (returns an error or a parsed URL), `govalidator.IsRequestURL`
(string-level validity of a request URL) and `url.QueryUnescape`
(single percent-unescape, which can fail). -/
structure URLLib where
  parse : String → Option URL
  isRequestURL : String → Bool
  queryUnescape : String → Option String

/-- Go's `url.Values` and `http.Header`: a map from strings to lists of
strings, modelled as an association list whose keys are distinct. -/
abbrev Values := List (String × List String)

/-- All values stored under a key (`v[key]` in Go); `[]` when absent. -/
def Values.getAll (v : Values) (k : String) : List String :=
  match v with
  | [] => []
  | kv :: rest => if kv.1 = k then kv.2 else Values.getAll rest k

/-- Models `url.Values.Get`: the first value stored under the key, or
`""` when the key is absent or has no values. -/
def Values.get (v : Values) (k : String) : String :=
  (Values.getAll v k).headD ""

/-- Models `url.Values.Add`: appends a value to the key's list, creating
the key when absent. -/
def Values.add (v : Values) (k val : String) : Values :=
  match v with
  | [] => [(k, [val])]
  | kv :: rest =>
    if kv.1 = k then (kv.1, kv.2 ++ [val]) :: rest
    else kv :: Values.add rest k val

/-- Models `url.Values.Set` / `http.Header.Set`: replaces the key's
values with the single given value. -/
def Values.set (v : Values) (k val : String) : Values :=
  match v with
  | [] => [(k, [val])]
  | kv :: rest =>
    if kv.1 = k then (k, [val]) :: rest
    else kv :: Values.set rest k val

/-- Insert a key/values pair into a list sorted by key (helper for
`Values.encode`, which sorts keys like Go's `url.Values.Encode`). -/
def insertByKey (p : String × List String) : Values → Values
  | [] => [p]
  | q :: rest =>
    if charListLe p.1.data q.1.data then p :: q :: rest
    else q :: insertByKey p rest

/-- Sort an association list by key (insertion sort). -/
def sortByKey : Values → Values
  | [] => []
  | p :: rest => insertByKey p (sortByKey rest)

/-- Models `url.Values.Encode`: keys in sorted order, each value rendered
as `key=value`, joined with `&` (percent-escaping omitted). -/
def Values.encode (v : Values) : String :=
  joinAmp (List.foldr (fun kv acc => kv.2.map (fun x => kv.1 ++ "=" ++ x) ++ acc) [] (sortByKey v))

/-- Models `url.ParseQuery` on the shapes used here: split on `&`, skip
empty segments, cut each segment at the first `=` into key and value,
append the value under the key (percent-unescaping omitted). -/
def parseQuery (s : String) : Values :=
  if s = "" then []
  else
    (splitChar '&' s.data).foldl
      (fun acc piece =>
        if piece = [] then acc
        else
          let kv := cutChar '=' piece
          let value := match kv.2 with | none => "" | some v => String.mk v
          Values.add acc (String.mk kv.1) value)
      []

example : parseQuery "a=1&b=2" = [("a", ["1"]), ("b", ["2"])] := by decide
example : Values.encode [("b", ["2"]), ("a", ["1", "3"])] = "a=1&a=3&b=2" := by decide
example : Values.get [("k", ["x", "y"])] "k" = "x" := by decide

/-- Decidable equality for `Except`, so results of the fallible
operations can be compared on concrete inputs. -/
instance instDecidableEqExcept {α β : Type} [DecidableEq α] [DecidableEq β] : DecidableEq (Except α β) := fun a b =>
  match a, b with
  | .ok x, .ok y =>
    match decEq x y with
    | isTrue h => isTrue (congrArg Except.ok h)
    | isFalse h => isFalse (fun hc => h (Except.ok.inj hc))
  | .error x, .error y =>
    match decEq x y with
    | isTrue h => isTrue (congrArg Except.error h)
    | isFalse h => isFalse (fun hc => h (Except.error.inj hc))
  | .ok _, .error _ => isFalse (fun hc => Except.noConfusion hc)
  | .error _, .ok _ => isFalse (fun hc => Except.noConfusion hc)

/-- The `Client` interface as authorize.go uses it: only
`GetRedirectURIs()` (the registered redirect URI strings) is consulted. -/
structure Client where
  redirectURIs : List String
deriving DecidableEq, Repr

/-- Modelled from the spec: `StringInSlice` (a fosite helper outside
authorize.go) — exact string comparison, not normalized, of the needle
against each entry of the haystack. -/
def StringInSlice (needle : String) (haystack : List String) : Bool :=
  haystack.contains needle

/-- Modelled from the spec: `removeEmpty` (a fosite helper outside
authorize.go) — removes empty items from a string array ("discarding
empty tokens"). -/
def removeEmpty (args : List String) : List String :=
  args.filter (fun s => s ≠ "")

/-- The error kinds of the core ("Global error singletons" in the spec,
represented as an error-kind enumeration); `otherErr` stands for any
further error a response-type handler may return. -/
inductive FErr where
  | invalidRequest
  | invalidClient
  | invalidState
  | invalidResponseType
  | noResponseTypeHandlerFound
  | otherErr (n : Nat)
deriving DecidableEq, Repr

/-- Models `IsValidRedirectURI` (authorize.go): the rendered URI must
satisfy `govalidator.IsRequestURL` and carry no fragment component. -/
def IsValidRedirectURI (lib : URLLib) (redirectURI : URL) : Bool :=
  if !(lib.isRequestURL redirectURI.render) then false
  else if redirectURI.fragment ≠ "" then false
  else true

/-- Models `GetRedirectURIFromRequestValues` (authorize.go): a single
`url.QueryUnescape` of the `redirect_uri` form value; failure yields
`ErrInvalidRequest`. -/
def GetRedirectURIFromRequestValues (lib : URLLib) (form : Values) : Except FErr String :=
  match lib.queryUnescape (form.get "redirect_uri") with
  | none => .error .invalidRequest
  | some redirectURI => .ok redirectURI

/-- Models `MatchRedirectURIWithClientRedirectURIs` (authorize.go): an
empty candidate resolves to the client's single registered URI when that
parses and is valid; a non-empty candidate must be an exact string member
of the registered set and then parse and be valid; every other case is
`ErrInvalidRequest`.  Note the Go `if/else if` chain: when the guard of a
branch holds but its inner check fails, control falls through to the
final error. -/
def MatchRedirectURIWithClientRedirectURIs (lib : URLLib) (rawurl : String) (client : Client) : Except FErr URL :=
  if rawurl = "" && client.redirectURIs.length == 1 then
    match lib.parse (client.redirectURIs.headD "") with
    | some redirectURIFromClient =>
      if IsValidRedirectURI lib redirectURIFromClient then .ok redirectURIFromClient
      else .error .invalidRequest
    | none => .error .invalidRequest
  else if rawurl ≠ "" && StringInSlice rawurl client.redirectURIs then
    match lib.parse rawurl with
    | some parsed =>
      if IsValidRedirectURI lib parsed then .ok parsed
      else .error .invalidRequest
    | none => .error .invalidRequest
  else .error .invalidRequest

/-- Models `minStateLength` (authorize.go). -/
def minStateLength : Nat := 8

/-- The `AuthorizeRequest` struct as `NewAuthorizeRequest` populates it
(the struct itself lives outside authorize.go; fields modelled from the
spec's data model and from the assignments in `NewAuthorizeRequest`).
Zero values mirror Go: nil interface/pointer for client and redirect URI,
empty slices and strings otherwise. -/
structure AuthorizeRequest where
  requestedAt : Nat
  client : Option Client := none
  redirectURI : Option URL := none
  responseTypes : List String := []
  state : String := ""
  scopes : List String := []
deriving DecidableEq, Repr

/-- Model of the inbound `http.Request` as authorize.go consumes it:
whether `ParseForm` succeeds, and the parsed form values (Go's
`url.Values`; `formGet` below is `r.Form.Get`). -/
structure Request where
  parseFormOk : Bool
  form : Values

/-- The `AuthorizeResponse` struct: accumulated query parameters and
header key/value pairs (fields modelled from the spec's data model and
from the uses in `WriteAuthorizeResponse`). -/
structure AuthorizeResponseData where
  query : Values := []
  headers : Values := []
deriving DecidableEq, Repr

/-- A response-type handler (`HandleResponseType` in Go): it receives the
shared response object and returns the (possibly mutated) response
together with `none` for success, `some .invalidResponseType` for
"not responsible", or any other error. -/
abbrev Handler := AuthorizeResponseData → AuthorizeResponseData × Option FErr

/-- The `Fosite` struct as authorize.go uses it: the client store's
`GetClient` (a lookup that can fail) and the ordered response-type
handler chain. -/
structure Fosite where
  getClient : String → Option Client
  responseTypeHandlers : List Handler

/-- Models `NewAuthorizeRequest` (authorize.go): the fail-fast sequence
of steps, each failure returning the partially populated request
together with its error, mirroring the Go `return request, err`
statements.  `now` stands for `time.Now()`. -/
def NewAuthorizeRequest (lib : URLLib) (c : Fosite) (now : Nat) (r : Request) : AuthorizeRequest × Option FErr :=
  let request : AuthorizeRequest := { requestedAt := now }
  if !r.parseFormOk then (request, some .invalidRequest)
  else
    match c.getClient (r.form.get "client_id") with
    | none => (request, some .invalidClient)
    | some client =>
      let request := { request with client := some client }
      match GetRedirectURIFromRequestValues lib r.form with
      | .error _ => (request, some .invalidRequest)
      | .ok rawRedirURI =>
        match MatchRedirectURIWithClientRedirectURIs lib rawRedirURI client with
        | .error _ => (request, some .invalidRequest)
        | .ok redirectURI =>
          if !IsValidRedirectURI lib redirectURI then (request, some .invalidRequest)
          else
            let request := { request with redirectURI := some redirectURI }
            let request := { request with responseTypes := removeEmpty ((splitChar ' ' (r.form.get "response_type").data).map String.mk) }
            let state := r.form.get "state"
            if state = "" then (request, some .invalidState)
            else if state.length < minStateLength then (request, some .invalidState)
            else
              let request := { request with state := state }
              let request := { request with scopes := removeEmpty ((splitChar ' ' (r.form.get "scope").data).map String.mk) }
              (request, none)

/-- The loop body of `NewAuthorizeResponse` (authorize.go): run the
handlers in order against the shared response object; a `nil` error marks
success (`found`), `ErrInvalidResponseType` is the swallowed
"not responsible" sentinel, and any other error aborts immediately. -/
def authorizeResponseLoop (handlers : List Handler) (resp : AuthorizeResponseData) (found : Bool) : Except FErr AuthorizeResponseData :=
  match handlers with
  | [] => if found then .ok resp else .error .noResponseTypeHandlerFound
  | h :: rest =>
    match h resp with
    | (resp2, none) => authorizeResponseLoop rest resp2 true
    | (resp2, some e) =>
      if e = .invalidResponseType then authorizeResponseLoop rest resp2 found
      else .error e

/-- Models `NewAuthorizeResponse` (authorize.go): a fresh response object
is threaded through the full handler chain; after a fatal-error-free
traversal, no success means `ErrNoResponseTypeHandlerFound`. -/
def NewAuthorizeResponse (o : Fosite) : Except FErr AuthorizeResponseData :=
  authorizeResponseLoop o.responseTypeHandlers {} false

/-- The outbound HTTP effects of a response writer: headers written via
`Add`/`Set`, and the status code passed to `WriteHeader`. -/
structure HTTPOut where
  headers : Values := []
  status : Option Nat := none
deriving DecidableEq, Repr

/-- `GetRedirectURI` on the request object: returns the stored redirect
URI (the Go field is a `*url.URL`; it is only read on requests whose
redirect URI was resolved, where it is non-nil). -/
def AuthorizeRequest.getRedirectURI (ar : AuthorizeRequest) : URL :=
  ar.redirectURI.getD ⟨"", "", "", "", ""⟩

/-- The query-merge loop of `WriteAuthorizeResponse` (authorize.go):
`q := redir.Query(); for k := range args { q.Add(k, args.Get(k)) }` —
note that `args.Get(k)` yields only the FIRST value stored under `k`. -/
def mergedQuery (redir : URL) (args : Values) : Values :=
  args.foldl (fun q kv => q.add kv.1 (args.get kv.1)) (parseQuery redir.rawQuery)

/-- Models `WriteAuthorizeResponse` (authorize.go): merge the response
query into the redirect URI's query, copy every response header value via
`Header().Add`, set `Location` to the redirect URI (the Go code mutates
the shared `*url.URL`, so the `Location` it renders carries the merged
query), and write status 302 (`http.StatusFound`). -/
def WriteAuthorizeResponse (ar : AuthorizeRequest) (resp : AuthorizeResponseData) : HTTPOut :=
  let redir := ar.getRedirectURI
  let q := mergedQuery redir resp.query
  let redir2 := { redir with rawQuery := q.encode }
  let h := resp.headers.foldl (fun acc kv => kv.2.foldl (fun acc2 vv => Values.add acc2 kv.1 vv) acc) ([] : Values)
  let h2 := Values.set h "Location" redir2.render
  { headers := h2, status := some 302 }

/-- The RFC6749 wire form of an error: a stable identifier and a
human-readable description (the struct lives outside authorize.go;
modelled from the spec's data model). -/
structure RFC6749Error where
  name : String
  description : String
deriving DecidableEq, Repr

/-- Modelled from the spec: `ErrorToRFC6749Error` (defined outside
authorize.go) maps each internal error kind to its stable wire
identifier and description. -/
def ErrorToRFC6749Error : FErr → RFC6749Error
  | .invalidRequest => ⟨"invalid_request", "The request is missing a required parameter or is otherwise malformed"⟩
  | .invalidClient => ⟨"invalid_client", "Client authentication failed"⟩
  | .invalidState => ⟨"invalid_state", "The state is missing or too short"⟩
  | .invalidResponseType => ⟨"unsupported_response_type", "The authorization server does not support this response type"⟩
  | .noResponseTypeHandlerFound => ⟨"unsupported_response_type", "No response type handler accepted the request"⟩
  | .otherErr _ => ⟨"server_error", "The authorization server encountered an unexpected condition"⟩

/-- The outbound effect of `WriteAuthorizeError`: either a direct JSON
body (`pkg.WriteJSON`, no redirect), or a redirect — the `Location`
header value together with the written status code. -/
inductive ErrorOut where
  | jsonBody (e : RFC6749Error)
  | redirect (location : String) (status : Nat)
deriving DecidableEq, Repr

/-- Modelled from the spec: `IsRedirectURIValid` (defined outside
authorize.go) reports whether the request's redirect URI was established
as valid; `NewAuthorizeRequest` stores the URI only after it passed
validation, so this is the presence of the resolved URI. -/
def AuthorizeRequest.isRedirectURIValid (ar : AuthorizeRequest) : Bool :=
  ar.redirectURI.isSome

/-- Models `WriteAuthorizeError` (authorize.go): without a valid redirect
URI the RFC-mapped error is written as a JSON body; otherwise `error` and
`error_description` are appended to the redirect URI's query and the
result is delivered as a 302 redirect. -/
def WriteAuthorizeError (ar : AuthorizeRequest) (err : FErr) : ErrorOut :=
  let rfcerr := ErrorToRFC6749Error err
  if !ar.isRedirectURIValid then .jsonBody rfcerr
  else
    let redirectURI := ar.getRedirectURI
    let query := ((parseQuery redirectURI.rawQuery).add "error" rfcerr.name).add "error_description" rfcerr.description
    let redirectURI2 := { redirectURI with rawQuery := query.encode }
    .redirect redirectURI2.render 302

/-- A small concrete parser in the shape of `url.Parse`, used to build a
concrete `URLLib` instance for evaluating the theorems: fragment after
the first `#`, query after the first `?`, then `scheme://host/path`. -/
def testParse (s : String) : Option URL :=
  let fr := cutChar '#' s.data
  let frag := match fr.2 with | none => "" | some f => String.mk f
  let qr := cutChar '?' fr.1
  let q := match qr.2 with | none => "" | some v => String.mk v
  let sc := cutChar ':' qr.1
  match sc.2 with
  | none => none
  | some rest =>
    match rest with
    | '/' :: '/' :: hostpath =>
      let hp := cutChar '/' hostpath
      let host := String.mk hp.1
      let path := match hp.2 with | none => "" | some p => String.mk ('/' :: p)
      if sc.1 = [] then none else some ⟨String.mk sc.1, host, path, q, frag⟩
    | _ => none

/-- Concrete stand-in for `govalidator.IsRequestURL`: the string parses
and has a scheme and a host. -/
def testIsRequestURL (s : String) : Bool :=
  match testParse s with
  | some u => u.scheme ≠ "" && u.host ≠ ""
  | none => false

/-- Concrete stand-in for `url.QueryUnescape`: fails exactly on strings
containing `%` (enough to exhibit both outcomes). -/
def testQueryUnescape (s : String) : Option String :=
  if s.data.contains '%' then none else some s

/-- The concrete `URLLib` instance used to evaluate theorems on concrete
inputs. -/
def testLib : URLLib :=
  ⟨testParse, testIsRequestURL, testQueryUnescape⟩

example : testParse "https://app.example/cb" = some ⟨"https", "app.example", "/cb", "", ""⟩ := by decide
example : testParse "https://app.example/cb#frag" = some ⟨"https", "app.example", "/cb", "", "frag"⟩ := by decide

/-- Claim C1: a non-empty supplied redirect URI that is not an exact
string member of the client's registered set is rejected with
`ErrInvalidRequest`, for every URL library — in particular regardless of
whether the supplied URI would itself parse as a valid absolute
fragment-free URI. -/
theorem redirect_uri_not_registered_rejected (lib : URLLib) (rawurl : String) (client : Client)
    (h1 : rawurl ≠ "") (h2 : StringInSlice rawurl client.redirectURIs = false) :
    MatchRedirectURIWithClientRedirectURIs lib rawurl client = .error .invalidRequest := by
  simp [MatchRedirectURIWithClientRedirectURIs, h1, h2]

/-- Witness for C1: a perfectly valid URL that is simply not registered
is rejected. -/
theorem redirect_uri_not_registered_rejected_witness :
    ("https://evil.example/cb" ≠ "")
    ∧ StringInSlice "https://evil.example/cb" ["https://app.example/cb"] = false
    ∧ IsValidRedirectURI testLib ⟨"https", "evil.example", "/cb", "", ""⟩ = true
    ∧ MatchRedirectURIWithClientRedirectURIs testLib "https://evil.example/cb" ⟨["https://app.example/cb"]⟩ = .error .invalidRequest :=
  ⟨by decide, by decide, by decide,
    redirect_uri_not_registered_rejected testLib "https://evil.example/cb" ⟨["https://app.example/cb"]⟩ (by decide) (by decide)⟩

/-- Claim C2: a supplied redirect URI that exactly string-matches a
registered entry but whose parsed form carries a fragment or is not an
absolute request URL is still rejected with `ErrInvalidRequest`: the
exact match does not override the validity rule. -/
theorem registered_match_invalid_uri_rejected (lib : URLLib) (rawurl : String) (client : Client)
    (h0 : rawurl ≠ "") (h1 : StringInSlice rawurl client.redirectURIs = true)
    (h2 : ∀ u, lib.parse rawurl = some u → u.fragment ≠ "" ∨ lib.isRequestURL u.render = false) :
    MatchRedirectURIWithClientRedirectURIs lib rawurl client = .error .invalidRequest := by
  by_cases hlen : rawurl = "" && client.redirectURIs.length == 1
  · rw [Bool.and_eq_true] at hlen
    exact absurd (of_decide_eq_true hlen.1) h0
  · simp only [MatchRedirectURIWithClientRedirectURIs, hlen, if_neg]
    simp only [h0, h1, Bool.and_self, if_true]
    cases hp : lib.parse rawurl with
    | none => simp [hp]
    | some u =>
      rcases h2 u hp with hfrag | hreq
      · simp [hp, IsValidRedirectURI, hfrag]
      · simp [hp, IsValidRedirectURI, hreq]

/-- Witness for C2: scenario 4 of the spec — the registered entry itself
carries a fragment, the request supplies the identical string, and
resolution still fails. -/
theorem registered_match_invalid_uri_rejected_witness :
    StringInSlice "https://app.example/cb#frag" ["https://app.example/cb#frag"] = true
    ∧ MatchRedirectURIWithClientRedirectURIs testLib "https://app.example/cb#frag" ⟨["https://app.example/cb#frag"]⟩ = .error .invalidRequest :=
  ⟨by decide,
    registered_match_invalid_uri_rejected testLib "https://app.example/cb#frag" ⟨["https://app.example/cb#frag"]⟩
      (by decide) (by decide)
      (by
        intro u hu
        have hp : testLib.parse "https://app.example/cb#frag" = some ⟨"https", "app.example", "/cb", "", "frag"⟩ := by decide
        rw [hp] at hu
        injection hu with h
        subst h
        left
        decide)⟩

/-- Claim C3: with an empty supplied redirect URI, a client with exactly
one registered URI that parses and is valid resolves to that URI; a
client whose registered set does not have exactly one entry, or whose
single entry is invalid, fails with `ErrInvalidRequest`. -/
theorem empty_redirect_uri_resolution (lib : URLLib) (client : Client) :
    (∀ reg u, client.redirectURIs = [reg] → lib.parse reg = some u → IsValidRedirectURI lib u = true →
      MatchRedirectURIWithClientRedirectURIs lib "" client = .ok u)
    ∧ (client.redirectURIs.length ≠ 1 →
      MatchRedirectURIWithClientRedirectURIs lib "" client = .error .invalidRequest)
    ∧ (∀ reg, client.redirectURIs = [reg] →
        (∀ u, lib.parse reg = some u → IsValidRedirectURI lib u = false) →
      MatchRedirectURIWithClientRedirectURIs lib "" client = .error .invalidRequest) := by
  refine ⟨?_, ?_, ?_⟩
  · intro reg u hreg hp hvalid
    simp [MatchRedirectURIWithClientRedirectURIs, hreg, hp, hvalid]
  · intro hlen
    simp [MatchRedirectURIWithClientRedirectURIs, hlen]
  · intro reg hreg hinv
    cases hp : lib.parse reg with
    | none => simp [MatchRedirectURIWithClientRedirectURIs, hreg, hp]
    | some u => simp [MatchRedirectURIWithClientRedirectURIs, hreg, hp, hinv u hp]

/-- Witness for C3: a single valid registered URI resolves; two
registered URIs fail; a single fragment-bearing registered URI fails. -/
theorem empty_redirect_uri_resolution_witness :
    MatchRedirectURIWithClientRedirectURIs testLib "" ⟨["https://app.example/cb"]⟩ = .ok ⟨"https", "app.example", "/cb", "", ""⟩
    ∧ MatchRedirectURIWithClientRedirectURIs testLib "" ⟨["https://a.example/cb", "https://b.example/cb"]⟩ = .error .invalidRequest
    ∧ MatchRedirectURIWithClientRedirectURIs testLib "" ⟨["https://app.example/cb#frag"]⟩ = .error .invalidRequest :=
  ⟨(empty_redirect_uri_resolution testLib ⟨["https://app.example/cb"]⟩).1 "https://app.example/cb" ⟨"https", "app.example", "/cb", "", ""⟩ rfl (by decide) (by decide),
    (empty_redirect_uri_resolution testLib ⟨["https://a.example/cb", "https://b.example/cb"]⟩).2.1 (by decide),
    (empty_redirect_uri_resolution testLib ⟨["https://app.example/cb#frag"]⟩).2.2 "https://app.example/cb#frag" rfl
      (by
        intro u hu
        have hp : testLib.parse "https://app.example/cb#frag" = some ⟨"https", "app.example", "/cb", "", "frag"⟩ := by decide
        rw [hp] at hu
        injection hu with h
        subst h
        decide)⟩

/-- Validity of a redirect URI unfolded: the rendered URI satisfies the
request-URL check and the fragment is empty. -/
theorem isValidRedirectURI_eq_true_iff (lib : URLLib) (u : URL) :
    IsValidRedirectURI lib u = true ↔ lib.isRequestURL u.render = true ∧ u.fragment = "" := by
  unfold IsValidRedirectURI
  by_cases h : lib.isRequestURL u.render <;> by_cases hf : u.fragment = "" <;> simp [h, hf]

/-- Any URL that `MatchRedirectURIWithClientRedirectURIs` returns has
passed `IsValidRedirectURI`. -/
theorem match_ok_isValid (lib : URLLib) (rawurl : String) (client : Client) (u : URL)
    (h : MatchRedirectURIWithClientRedirectURIs lib rawurl client = .ok u) :
    IsValidRedirectURI lib u = true := by
  unfold MatchRedirectURIWithClientRedirectURIs at h
  split at h
  · cases hp : lib.parse (client.redirectURIs.headD "") with
    | none => rw [hp] at h; exact absurd h (by simp)
    | some v =>
      rw [hp] at h
      dsimp only at h
      by_cases hv : IsValidRedirectURI lib v
      · rw [if_pos hv] at h
        injection h with h2
        exact h2 ▸ hv
      · rw [if_neg hv] at h
        exact absurd h (by simp)
  · split at h
    · cases hp : lib.parse rawurl with
      | none => rw [hp] at h; exact absurd h (by simp)
      | some v =>
        rw [hp] at h
        dsimp only at h
        by_cases hv : IsValidRedirectURI lib v
        · rw [if_pos hv] at h
          injection h with h2
          exact h2 ▸ hv
        · rw [if_neg hv] at h
          exact absurd h (by simp)
    · exact absurd h (by simp)

/-- Equation for the invalid-state failure of `NewAuthorizeRequest`: all
earlier steps succeeded, so the returned request carries the client, the
resolved redirect URI and the split response types, but not yet the
state or the scopes. -/
theorem newAuthorizeRequest_invalidState_eq (lib : URLLib) (c : Fosite) (now : Nat) (r : Request)
    (client : Client) (raw : String) (u : URL)
    (hform : r.parseFormOk = true)
    (hcl : c.getClient (Values.get r.form "client_id") = some client)
    (hq : lib.queryUnescape (Values.get r.form "redirect_uri") = some raw)
    (hm : MatchRedirectURIWithClientRedirectURIs lib raw client = .ok u)
    (hshort : (Values.get r.form "state").length < minStateLength) :
    NewAuthorizeRequest lib c now r =
      ({ requestedAt := now, client := some client, redirectURI := some u,
         responseTypes := removeEmpty ((splitChar ' ' (Values.get r.form "response_type").data).map String.mk) },
       some .invalidState) := by
  have hv := match_ok_isValid lib raw client u hm
  by_cases hs : Values.get r.form "state" = "" <;>
    simp [NewAuthorizeRequest, GetRedirectURIFromRequestValues, hform, hcl, hq, hm, hv, hs, hshort]

/-- Claim C4: once form parsing, client lookup, redirect URI resolution
and response-type splitting succeed, a state shorter than 8 characters
(including the empty string) makes `NewAuthorizeRequest` fail with
`ErrInvalidState`. -/
theorem short_state_invalid_state (lib : URLLib) (c : Fosite) (now : Nat) (r : Request)
    (client : Client) (raw : String) (u : URL)
    (hform : r.parseFormOk = true)
    (hcl : c.getClient (Values.get r.form "client_id") = some client)
    (hq : lib.queryUnescape (Values.get r.form "redirect_uri") = some raw)
    (hm : MatchRedirectURIWithClientRedirectURIs lib raw client = .ok u)
    (hshort : (Values.get r.form "state").length < minStateLength) :
    (NewAuthorizeRequest lib c now r).2 = some .invalidState := by
  rw [newAuthorizeRequest_invalidState_eq lib c now r client raw u hform hcl hq hm hshort]

/-- A concrete client, registered with one valid redirect URI (the
spec's scenario client `c1`). -/
def clientOne : Client := ⟨["https://app.example/cb"]⟩

/-- A concrete `Fosite` instance whose store knows only `c1` and which
has no response-type handlers. -/
def fositeOne : Fosite := ⟨fun cid => if cid = "c1" then some clientOne else none, []⟩

/-- Witness for C4: the spec's scenario 2 — `state=short` fails with
`ErrInvalidState`. -/
theorem short_state_invalid_state_witness :
    (Values.get [("client_id", ["c1"]), ("state", ["short"])] "state").length < minStateLength
    ∧ (NewAuthorizeRequest testLib fositeOne 0 ⟨true, [("client_id", ["c1"]), ("state", ["short"])]⟩).2 = some .invalidState :=
  ⟨by decide,
    short_state_invalid_state testLib fositeOne 0 ⟨true, [("client_id", ["c1"]), ("state", ["short"])]⟩
      clientOne "" ⟨"https", "app.example", "/cb", "", ""⟩
      rfl (by decide) (by decide) (by decide) (by decide)⟩

/-- Claim C9: every request that `NewAuthorizeRequest` returns without
an error has a state of length at least 8 (hence non-empty) and a
resolved redirect URI that passed `IsValidRedirectURI`: it renders as an
absolute request URL and carries no fragment. -/
theorem successful_request_invariants (lib : URLLib) (c : Fosite) (now : Nat) (r : Request)
    (req : AuthorizeRequest) (h : NewAuthorizeRequest lib c now r = (req, none)) :
    req.state ≠ "" ∧ minStateLength ≤ req.state.length
    ∧ ∃ u, req.redirectURI = some u ∧ lib.isRequestURL u.render = true ∧ u.fragment = "" := by
  unfold NewAuthorizeRequest at h
  by_cases hform : r.parseFormOk
  · simp only [hform, Bool.not_true, Bool.false_eq_true, if_false] at h
    cases hcl : c.getClient (Values.get r.form "client_id") with
    | none => rw [hcl] at h; simp at h
    | some client =>
      rw [hcl] at h
      dsimp only at h
      unfold GetRedirectURIFromRequestValues at h
      cases hq : lib.queryUnescape (Values.get r.form "redirect_uri") with
      | none => rw [hq] at h; simp at h
      | some raw =>
        rw [hq] at h
        dsimp only at h
        cases hm : MatchRedirectURIWithClientRedirectURIs lib raw client with
        | error e => rw [hm] at h; simp at h
        | ok u =>
          rw [hm] at h
          dsimp only at h
          have hv := match_ok_isValid lib raw client u hm
          rw [hv] at h
          simp only [Bool.not_true, Bool.false_eq_true, if_false] at h
          by_cases hs : Values.get r.form "state" = ""
          · simp [hs] at h
          · rw [if_neg hs] at h
            by_cases hlen : (Values.get r.form "state").length < minStateLength
            · simp [hlen] at h
            · rw [if_neg hlen] at h
              rw [Prod.mk.injEq] at h
              obtain ⟨hreq, -⟩ := h
              subst hreq
              refine ⟨hs, ?_, u, rfl, (isValidRedirectURI_eq_true_iff lib u).1 hv⟩
              show minStateLength ≤ (Values.get r.form "state").length
              omega
  · simp [hform] at h

/-- The request object that the spec's scenario 1 builds. -/
def requestOneBuilt : AuthorizeRequest :=
  { requestedAt := 0, client := some clientOne, redirectURI := some ⟨"https", "app.example", "/cb", "", ""⟩, responseTypes := ["code"], state := "abcdefgh", scopes := ["a", "b"] }

/-- The inbound form of the spec's scenario 1. -/
def requestOneForm : Request :=
  ⟨true, [("client_id", ["c1"]), ("response_type", ["code"]), ("state", ["abcdefgh"]), ("scope", ["a b"])]⟩

/-- Witness for C9: the spec's scenario 1 builds successfully and the
resulting request satisfies the invariants. -/
theorem successful_request_invariants_witness :
    NewAuthorizeRequest testLib fositeOne 0 requestOneForm = (requestOneBuilt, none)
    ∧ (requestOneBuilt.state ≠ "" ∧ minStateLength ≤ requestOneBuilt.state.length
        ∧ ∃ u, requestOneBuilt.redirectURI = some u ∧ testLib.isRequestURL u.render = true ∧ u.fragment = "") :=
  ⟨by decide,
    successful_request_invariants testLib fositeOne 0 requestOneForm requestOneBuilt (by decide)⟩

/-- Claim C10: every failure path of `NewAuthorizeRequest` returns,
alongside its error, the request object with `RequestedAt` set to the
current time and exactly the fields populated by the steps that
completed before the failing step. -/
theorem failure_paths_return_partial_request (lib : URLLib) (c : Fosite) (now : Nat) (r : Request) :
    (r.parseFormOk = false →
      NewAuthorizeRequest lib c now r = ({ requestedAt := now }, some .invalidRequest))
    ∧ (r.parseFormOk = true → c.getClient (Values.get r.form "client_id") = none →
      NewAuthorizeRequest lib c now r = ({ requestedAt := now }, some .invalidClient))
    ∧ (∀ client, r.parseFormOk = true → c.getClient (Values.get r.form "client_id") = some client →
        lib.queryUnescape (Values.get r.form "redirect_uri") = none →
      NewAuthorizeRequest lib c now r = ({ requestedAt := now, client := some client }, some .invalidRequest))
    ∧ (∀ client raw e, r.parseFormOk = true → c.getClient (Values.get r.form "client_id") = some client →
        lib.queryUnescape (Values.get r.form "redirect_uri") = some raw →
        MatchRedirectURIWithClientRedirectURIs lib raw client = .error e →
      NewAuthorizeRequest lib c now r = ({ requestedAt := now, client := some client }, some .invalidRequest))
    ∧ (∀ client raw u, r.parseFormOk = true → c.getClient (Values.get r.form "client_id") = some client →
        lib.queryUnescape (Values.get r.form "redirect_uri") = some raw →
        MatchRedirectURIWithClientRedirectURIs lib raw client = .ok u →
        (Values.get r.form "state").length < minStateLength →
      NewAuthorizeRequest lib c now r =
        ({ requestedAt := now, client := some client, redirectURI := some u,
           responseTypes := removeEmpty ((splitChar ' ' (Values.get r.form "response_type").data).map String.mk) },
         some .invalidState)) := by
  refine ⟨?_, ?_, ?_, ?_, ?_⟩
  · intro hform
    simp [NewAuthorizeRequest, hform]
  · intro hform hcl
    simp [NewAuthorizeRequest, hform, hcl]
  · intro client hform hcl hq
    simp [NewAuthorizeRequest, GetRedirectURIFromRequestValues, hform, hcl, hq]
  · intro client raw e hform hcl hq hm
    simp [NewAuthorizeRequest, GetRedirectURIFromRequestValues, hform, hcl, hq, hm]
  · intro client raw u hform hcl hq hm hshort
    exact newAuthorizeRequest_invalidState_eq lib c now r client raw u hform hcl hq hm hshort

/-- Witness for C10: each failure kind evaluated on a concrete request
against the concrete store. -/
theorem failure_paths_return_partial_request_witness :
    NewAuthorizeRequest testLib fositeOne 7 ⟨false, []⟩ = ({ requestedAt := 7 }, some .invalidRequest)
    ∧ NewAuthorizeRequest testLib fositeOne 7 ⟨true, [("client_id", ["zz"])]⟩ = ({ requestedAt := 7 }, some .invalidClient)
    ∧ NewAuthorizeRequest testLib fositeOne 7 ⟨true, [("client_id", ["c1"]), ("redirect_uri", ["%E2"])]⟩
        = ({ requestedAt := 7, client := some clientOne }, some .invalidRequest)
    ∧ NewAuthorizeRequest testLib fositeOne 7 ⟨true, [("client_id", ["c1"]), ("redirect_uri", ["https://evil.example/cb"])]⟩
        = ({ requestedAt := 7, client := some clientOne }, some .invalidRequest)
    ∧ NewAuthorizeRequest testLib fositeOne 7 ⟨true, [("client_id", ["c1"]), ("state", ["short"])]⟩
        = ({ requestedAt := 7, client := some clientOne, redirectURI := some ⟨"https", "app.example", "/cb", "", ""⟩ }, some .invalidState) :=
  ⟨(failure_paths_return_partial_request testLib fositeOne 7 ⟨false, []⟩).1 rfl,
    (failure_paths_return_partial_request testLib fositeOne 7 ⟨true, [("client_id", ["zz"])]⟩).2.1 rfl (by decide),
    (failure_paths_return_partial_request testLib fositeOne 7 ⟨true, [("client_id", ["c1"]), ("redirect_uri", ["%E2"])]⟩).2.2.1
      clientOne rfl (by decide) (by decide),
    (failure_paths_return_partial_request testLib fositeOne 7 ⟨true, [("client_id", ["c1"]), ("redirect_uri", ["https://evil.example/cb"])]⟩).2.2.2.1
      clientOne "https://evil.example/cb" FErr.invalidRequest rfl (by decide) (by decide) (by decide),
    (failure_paths_return_partial_request testLib fositeOne 7 ⟨true, [("client_id", ["c1"]), ("state", ["short"])]⟩).2.2.2.2
      clientOne "" ⟨"https", "app.example", "/cb", "", ""⟩ rfl (by decide) (by decide) (by decide) (by decide)⟩

/-- Unfolding equation for one step of the dispatch loop. -/
theorem authorizeResponseLoop_cons (h : Handler) (rest : List Handler) (resp : AuthorizeResponseData) (found : Bool) :
    authorizeResponseLoop (h :: rest) resp found =
      match h resp with
      | (resp2, none) => authorizeResponseLoop rest resp2 true
      | (resp2, some e) =>
        if e = FErr.invalidResponseType then authorizeResponseLoop rest resp2 found
        else .error e := rfl

/-- A fatal-error-free traversal that has already recorded a success
ends in `Except.ok`. -/
theorem authorizeResponseLoop_found_ok : ∀ (hs : List Handler) (resp : AuthorizeResponseData),
    (∀ h ∈ hs, ∀ s, (h s).2 = none ∨ (h s).2 = some FErr.invalidResponseType) →
    ∃ out, authorizeResponseLoop hs resp true = .ok out := by
  intro hs
  induction hs with
  | nil => exact fun resp _ => ⟨resp, rfl⟩
  | cons h rest ih =>
    intro resp hnf
    obtain ⟨resp2, e, hh⟩ : ∃ a b, h resp = (a, b) := ⟨_, _, rfl⟩
    have he := hnf h (by simp) resp
    rw [hh] at he
    have hnf2 : ∀ g ∈ rest, ∀ s, (g s).2 = none ∨ (g s).2 = some FErr.invalidResponseType :=
      fun g hg s => hnf g (by simp [hg]) s
    rcases he with he | he
    · simp only at he
      subst he
      obtain ⟨out, hout⟩ := ih resp2 hnf2
      exact ⟨out, by rw [authorizeResponseLoop_cons, hh]; exact hout⟩
    · simp only at he
      subst he
      obtain ⟨out, hout⟩ := ih resp2 hnf2
      refine ⟨out, ?_⟩
      rw [authorizeResponseLoop_cons, hh]
      simpa using hout

/-- A traversal in which every handler always answers the
"not responsible" sentinel never records a success. -/
theorem authorizeResponseLoop_all_sentinel : ∀ (hs : List Handler) (resp : AuthorizeResponseData),
    (∀ h ∈ hs, ∀ s, (h s).2 = some FErr.invalidResponseType) →
    authorizeResponseLoop hs resp false = .error .noResponseTypeHandlerFound := by
  intro hs
  induction hs with
  | nil => exact fun _ _ => rfl
  | cons h rest ih =>
    intro resp hsen
    obtain ⟨resp2, e, hh⟩ : ∃ a b, h resp = (a, b) := ⟨_, _, rfl⟩
    have he := hsen h (by simp) resp
    rw [hh] at he
    simp only at he
    subst he
    rw [authorizeResponseLoop_cons, hh]
    simpa using ih resp2 (fun g hg s => hsen g (by simp [hg]) s)

/-- A fatal-error-free traversal containing a handler that always
succeeds ends in `Except.ok` even when no success was recorded yet. -/
theorem authorizeResponseLoop_exists_success : ∀ (hs : List Handler) (resp : AuthorizeResponseData),
    (∀ h ∈ hs, ∀ s, (h s).2 = none ∨ (h s).2 = some FErr.invalidResponseType) →
    (∃ h ∈ hs, ∀ s, (h s).2 = none) →
    ∃ out, authorizeResponseLoop hs resp false = .ok out := by
  intro hs
  induction hs with
  | nil =>
    intro resp _ hex
    obtain ⟨h, hh, -⟩ := hex
    exact absurd hh (List.not_mem_nil h)
  | cons h rest ih =>
    intro resp hnf hex
    obtain ⟨resp2, e, hh⟩ : ∃ a b, h resp = (a, b) := ⟨_, _, rfl⟩
    have hnf2 : ∀ g ∈ rest, ∀ s, (g s).2 = none ∨ (g s).2 = some FErr.invalidResponseType :=
      fun g hg s => hnf g (by simp [hg]) s
    rcases hnf h (by simp) resp with he | he
    · rw [hh] at he
      simp only at he
      subst he
      obtain ⟨out, hout⟩ := authorizeResponseLoop_found_ok rest resp2 hnf2
      exact ⟨out, by rw [authorizeResponseLoop_cons, hh]; exact hout⟩
    · rw [hh] at he
      simp only at he
      subst he
      obtain ⟨g, hg, hgs⟩ := hex
      rcases List.mem_cons.1 hg with rfl | hgrest
      · exact absurd (hgs resp) (by rw [hh]; simp)
      · obtain ⟨out, hout⟩ := ih resp2 hnf2 ⟨g, hgrest, hgs⟩
        refine ⟨out, ?_⟩
        rw [authorizeResponseLoop_cons, hh]
        simpa using hout

/-- Claim C5: over a handler chain with no fatal errors,
`NewAuthorizeResponse` returns the accumulated response whenever some
handler succeeds, and fails with `ErrNoResponseTypeHandlerFound` exactly
when every handler answers the "not responsible" sentinel. -/
theorem dispatch_success_and_no_handler_found (o : Fosite)
    (hnf : ∀ h ∈ o.responseTypeHandlers, ∀ s, (h s).2 = none ∨ (h s).2 = some FErr.invalidResponseType) :
    ((∃ h ∈ o.responseTypeHandlers, ∀ s, (h s).2 = none) → ∃ out, NewAuthorizeResponse o = .ok out)
    ∧ ((∀ h ∈ o.responseTypeHandlers, ∀ s, (h s).2 = some FErr.invalidResponseType) →
      NewAuthorizeResponse o = .error .noResponseTypeHandlerFound) := by
  constructor
  · intro hex
    exact authorizeResponseLoop_exists_success o.responseTypeHandlers {} hnf hex
  · intro hsen
    exact authorizeResponseLoop_all_sentinel o.responseTypeHandlers {} hsen

/-- A handler that declares itself not responsible for every request. -/
def handlerNotResponsible : Handler := fun resp => (resp, some .invalidResponseType)

/-- A handler that always succeeds, writing an authorization code into
the shared response object. -/
def handlerCode : Handler := fun resp => ({ resp with query := Values.add resp.query "code" "authcode" }, none)

/-- A handler that always fails with a fatal (non-sentinel) error. -/
def handlerFatal : Handler := fun resp => (resp, some (.otherErr 3))

/-- A `Fosite` instance with an empty client store and the given handler
chain. -/
def fositeWith (hs : List Handler) : Fosite := ⟨fun _ => none, hs⟩

/-- Witness for C5: the spec's scenarios 5 and 6 — a chain of
[not-responsible, success] dispatches successfully, and a chain of two
not-responsible handlers fails with `ErrNoResponseTypeHandlerFound`. -/
theorem dispatch_success_and_no_handler_found_witness :
    (∃ out, NewAuthorizeResponse (fositeWith [handlerNotResponsible, handlerCode]) = .ok out)
    ∧ NewAuthorizeResponse (fositeWith [handlerNotResponsible, handlerNotResponsible]) = .error .noResponseTypeHandlerFound := by
  constructor
  · refine (dispatch_success_and_no_handler_found (fositeWith [handlerNotResponsible, handlerCode]) ?_).1 ?_
    · intro h hh s
      rcases List.mem_cons.1 hh with rfl | hh2
      · exact Or.inr rfl
      · rcases List.mem_cons.1 hh2 with rfl | hh3
        · exact Or.inl rfl
        · exact absurd hh3 (List.not_mem_nil h)
    · exact ⟨handlerCode, List.mem_cons_of_mem _ (List.mem_cons_self _ _), fun s => rfl⟩
  · refine (dispatch_success_and_no_handler_found (fositeWith [handlerNotResponsible, handlerNotResponsible]) ?_).2 ?_
    · intro h hh s
      rcases List.mem_cons.1 hh with rfl | hh2
      · exact Or.inr rfl
      · rcases List.mem_cons.1 hh2 with rfl | hh3
        · exact Or.inr rfl
        · exact absurd hh3 (List.not_mem_nil h)
    · intro h hh s
      rcases List.mem_cons.1 hh with rfl | hh2
      · exact rfl
      · rcases List.mem_cons.1 hh2 with rfl | hh3
        · exact rfl
        · exact absurd hh3 (List.not_mem_nil h)

/-- The dispatch loop aborts with the first fatal handler error,
whatever handlers follow and whether a success was already recorded. -/
theorem authorizeResponseLoop_fatal : ∀ (pre : List Handler) (post : List Handler) (h : Handler) (e : FErr)
    (resp : AuthorizeResponseData) (found : Bool),
    (∀ g ∈ pre, ∀ s, (g s).2 = none ∨ (g s).2 = some FErr.invalidResponseType) →
    (∀ s, (h s).2 = some e) → e ≠ FErr.invalidResponseType →
    authorizeResponseLoop (pre ++ h :: post) resp found = .error e := by
  intro pre
  induction pre with
  | nil =>
    intro post h e resp found _ hh he
    obtain ⟨resp2, e2, hp⟩ : ∃ a b, h resp = (a, b) := ⟨_, _, rfl⟩
    have := hh resp
    rw [hp] at this
    simp only at this
    subst this
    rw [List.nil_append, authorizeResponseLoop_cons, hp]
    simp [he]
  | cons g rest ih =>
    intro post h e resp found hpre hh he
    obtain ⟨resp2, e2, hp⟩ : ∃ a b, g resp = (a, b) := ⟨_, _, rfl⟩
    have hpre2 : ∀ g2 ∈ rest, ∀ s, (g2 s).2 = none ∨ (g2 s).2 = some FErr.invalidResponseType :=
      fun g2 hg s => hpre g2 (by simp [hg]) s
    rcases hpre g (by simp) resp with hge | hge
    · rw [hp] at hge
      simp only at hge
      subst hge
      rw [List.cons_append, authorizeResponseLoop_cons, hp]
      exact ih post h e resp2 true hpre2 hh he
    · rw [hp] at hge
      simp only at hge
      subst hge
      rw [List.cons_append, authorizeResponseLoop_cons, hp]
      simpa using ih post h e resp2 found hpre2 hh he

/-- Claim C6: when the handler at some position always returns a
non-sentinel error and every earlier handler is non-fatal,
`NewAuthorizeResponse` returns exactly that error — independently of the
handlers after that position, which are never invoked. -/
theorem fatal_handler_error_aborts_dispatch (o : Fosite) (pre post : List Handler) (h : Handler) (e : FErr)
    (hchain : o.responseTypeHandlers = pre ++ h :: post)
    (hpre : ∀ g ∈ pre, ∀ s, (g s).2 = none ∨ (g s).2 = some FErr.invalidResponseType)
    (hh : ∀ s, (h s).2 = some e) (he : e ≠ FErr.invalidResponseType) :
    NewAuthorizeResponse o = .error e := by
  unfold NewAuthorizeResponse
  rw [hchain]
  exact authorizeResponseLoop_fatal pre post h e {} false hpre hh he

/-- Witness for C6: a chain [not-responsible, success, fatal, success] —
the earlier success does not prevent the abort, and the trailing handler
does not change the outcome. -/
theorem fatal_handler_error_aborts_dispatch_witness :
    NewAuthorizeResponse (fositeWith [handlerNotResponsible, handlerCode, handlerFatal, handlerCode]) = .error (.otherErr 3) := by
  refine fatal_handler_error_aborts_dispatch _ [handlerNotResponsible, handlerCode] [handlerCode] handlerFatal (.otherErr 3) rfl ?_ (fun s => rfl) (by decide)
  intro g hg s
  rcases List.mem_cons.1 hg with rfl | hg2
  · exact Or.inr rfl
  · rcases List.mem_cons.1 hg2 with rfl | hg3
    · exact Or.inl rfl
    · exact absurd hg3 (List.not_mem_nil g)

/-- Adding a value under a key appends it to that key's value list. -/
theorem getAll_add_self (v : Values) (k val : String) :
    Values.getAll (Values.add v k val) k = Values.getAll v k ++ [val] := by
  induction v with
  | nil => simp [Values.add, Values.getAll]
  | cons kv rest ih =>
    by_cases h : kv.1 = k
    · simp [Values.add, Values.getAll, h]
    · simp [Values.add, Values.getAll, h, ih]

/-- Adding a value under one key leaves every other key's values
unchanged. -/
theorem getAll_add_ne (v : Values) (k k2 val : String) (h : k2 ≠ k) :
    Values.getAll (Values.add v k2 val) k = Values.getAll v k := by
  induction v with
  | nil => simp [Values.add, Values.getAll, h]
  | cons kv rest ih =>
    by_cases h2 : kv.1 = k2
    · simp [Values.add, Values.getAll, h2, h]
    · simp [Values.add, Values.getAll, h2, ih]

/-- Setting one key leaves every other key's values unchanged. -/
theorem getAll_set_ne (v : Values) (k k2 val : String) (h : k2 ≠ k) :
    Values.getAll (Values.set v k2 val) k = Values.getAll v k := by
  induction v with
  | nil => simp [Values.set, Values.getAll, h]
  | cons kv rest ih =>
    by_cases h2 : kv.1 = k2
    · simp [Values.set, Values.getAll, h2, h]
    · simp [Values.set, Values.getAll, h2, ih]

/-- Reading a key immediately after setting it yields the set value. -/
theorem get_set_self (v : Values) (k val : String) :
    Values.get (Values.set v k val) k = val := by
  induction v with
  | nil => simp [Values.set, Values.get, Values.getAll]
  | cons kv rest ih =>
    by_cases h : kv.1 = k
    · simp [Values.set, Values.get, Values.getAll, h]
    · simp only [Values.set, h, if_false]
      simpa [Values.get, Values.getAll, h] using ih

/-- In an association list with distinct keys, membership determines the
stored value list. -/
theorem getAll_eq_of_mem (args : Values) (k : String) (vs : List String)
    (hnd : (args.map Prod.fst).Nodup) (hmem : (k, vs) ∈ args) :
    Values.getAll args k = vs := by
  induction args with
  | nil => cases hmem
  | cons kv rest ih =>
    rcases List.mem_cons.1 hmem with rfl | hrest
    · simp [Values.getAll]
    · have hk : k ∈ rest.map Prod.fst := List.mem_map_of_mem Prod.fst hrest
      have hne : kv.1 ≠ k := by
        intro hc
        exact (List.nodup_cons.1 hnd).1 (hc ▸ hk)
      simp only [Values.getAll, hne, if_false]
      exact ih (List.nodup_cons.1 hnd).2 hrest

/-- The merge loop leaves the values of a key that the response query
does not mention unchanged. -/
theorem getAll_merge_not_mem (args : List (String × List String)) (f : String × List String → String) :
    ∀ (q : Values) (k : String), k ∉ args.map Prod.fst →
    Values.getAll (args.foldl (fun acc kv => Values.add acc kv.1 (f kv)) q) k = Values.getAll q k := by
  induction args with
  | nil => intro q k _; rfl
  | cons kv rest ih =>
    intro q k hk
    simp only [List.map_cons, List.mem_cons, not_or] at hk
    rw [List.foldl_cons, ih (Values.add q kv.1 (f kv)) k hk.2]
    exact getAll_add_ne q k kv.1 (f kv) (fun hc => hk.1 hc.symm)

/-- The merge loop appends exactly one value per key of the response
query: the value chosen by `f` for that key's pair. -/
theorem getAll_merge_mem (args : List (String × List String)) (f : String × List String → String) :
    ∀ (q : Values) (k : String) (vs : List String),
    (args.map Prod.fst).Nodup → (k, vs) ∈ args →
    Values.getAll (args.foldl (fun acc kv => Values.add acc kv.1 (f kv)) q) k
      = Values.getAll q k ++ [f (k, vs)] := by
  induction args with
  | nil => intro q k vs _ hmem; cases hmem
  | cons kv rest ih =>
    intro q k vs hnd hmem
    rw [List.foldl_cons]
    rcases List.mem_cons.1 hmem with rfl | hrest
    · rw [getAll_merge_not_mem rest f _ k (by simpa using (List.nodup_cons.1 hnd).1)]
      exact getAll_add_self q k (f (k, vs))
    · have hk : k ∈ rest.map Prod.fst := List.mem_map_of_mem Prod.fst hrest
      have hne : kv.1 ≠ k := fun hc => (List.nodup_cons.1 hnd).1 (hc ▸ hk)
      rw [ih _ k vs (List.nodup_cons.1 hnd).2 hrest]
      rw [getAll_add_ne q k kv.1 (f kv) hne]

/-- Copying a list of values under one key appends them all to that
key's list. -/
theorem getAll_copyvals_self (vs : List String) :
    ∀ (acc : Values) (k : String),
    Values.getAll (vs.foldl (fun a vv => Values.add a k vv) acc) k = Values.getAll acc k ++ vs := by
  induction vs with
  | nil => intro acc k; simp
  | cons v rest ih =>
    intro acc k
    rw [List.foldl_cons, ih (Values.add acc k v) k, getAll_add_self]
    simp

/-- Copying values under one key leaves other keys unchanged. -/
theorem getAll_copyvals_ne (vs : List String) :
    ∀ (acc : Values) (k k2 : String), k2 ≠ k →
    Values.getAll (vs.foldl (fun a vv => Values.add a k2 vv) acc) k = Values.getAll acc k := by
  induction vs with
  | nil => intro acc k k2 _; rfl
  | cons v rest ih =>
    intro acc k k2 h
    rw [List.foldl_cons, ih _ k k2 h, getAll_add_ne acc k k2 v h]

/-- The header-copy loop leaves keys that the response headers do not
mention unchanged. -/
theorem getAll_copyheaders_not_mem (hdrs : Values) :
    ∀ (acc : Values) (k : String), k ∉ hdrs.map Prod.fst →
    Values.getAll (hdrs.foldl (fun a kv => kv.2.foldl (fun a2 vv => Values.add a2 kv.1 vv) a) acc) k
      = Values.getAll acc k := by
  induction hdrs with
  | nil => intro acc k _; rfl
  | cons kv rest ih =>
    intro acc k hk
    simp only [List.map_cons, List.mem_cons, not_or] at hk
    rw [List.foldl_cons, ih _ k hk.2]
    exact getAll_copyvals_ne kv.2 acc k kv.1 (fun hc => hk.1 hc.symm)

/-- The header-copy loop writes, for each header key of the response,
exactly that key's value list. -/
theorem getAll_copyheaders_mem (hdrs : Values) :
    ∀ (acc : Values) (k : String) (vs : List String),
    (hdrs.map Prod.fst).Nodup → (k, vs) ∈ hdrs →
    Values.getAll (hdrs.foldl (fun a kv => kv.2.foldl (fun a2 vv => Values.add a2 kv.1 vv) a) acc) k
      = Values.getAll acc k ++ vs := by
  induction hdrs with
  | nil => intro acc k vs _ hmem; cases hmem
  | cons kv rest ih =>
    intro acc k vs hnd hmem
    rw [List.foldl_cons]
    rcases List.mem_cons.1 hmem with rfl | hrest
    · rw [getAll_copyheaders_not_mem rest _ k (by simpa using (List.nodup_cons.1 hnd).1)]
      exact getAll_copyvals_self vs acc k
    · have hk : k ∈ rest.map Prod.fst := List.mem_map_of_mem Prod.fst hrest
      have hne : kv.1 ≠ k := fun hc => (List.nodup_cons.1 hnd).1 (hc ▸ hk)
      rw [ih _ k vs (List.nodup_cons.1 hnd).2 hrest]
      rw [getAll_copyvals_ne kv.2 acc k kv.1 hne]

/-- Counterexample to C7 as stated: the accumulated response query holds
the repeated values ["a", "b"] under key "k", yet `WriteAuthorizeResponse`
(whose merge loop runs `q.Add(k, args.Get(k))`, and `Get` yields only the
first value) appends only "k=a" — not each accumulated parameter. -/
theorem write_response_drops_repeated_values :
    Values.getAll (mergedQuery ⟨"https", "app.example", "/cb", "", ""⟩ [("k", ["a", "b"])]) "k" = ["a"]
    ∧ Values.getAll (mergedQuery ⟨"https", "app.example", "/cb", "", ""⟩ [("k", ["a", "b"])]) "k" ≠ ["a", "b"]
    ∧ Values.get (WriteAuthorizeResponse { requestedAt := 0, redirectURI := some ⟨"https", "app.example", "/cb", "", ""⟩ } { query := [("k", ["a", "b"])], headers := [] }).headers "Location"
        = "https://app.example/cb?k=a" := by
  refine ⟨by decide, by decide, by decide⟩

/-- Claim C7 (amended): for every validated request and response,
`WriteAuthorizeResponse` appends — for each key of the accumulated
response query — that key's FIRST value once to the redirect URI's
existing query (parameters already on the redirect URI are kept, not
replaced), copies every accumulated header key/value pair onto the
outbound headers, sets `Location` to the resulting redirect URI, and
writes status 302. -/
theorem write_response_appends_first_value_per_key (ar : AuthorizeRequest) (u : URL) (resp : AuthorizeResponseData)
    (hu : ar.redirectURI = some u)
    (hqnd : (resp.query.map Prod.fst).Nodup)
    (hhnd : (resp.headers.map Prod.fst).Nodup) :
    (WriteAuthorizeResponse ar resp).status = some 302
    ∧ Values.get (WriteAuthorizeResponse ar resp).headers "Location"
        = URL.render { u with rawQuery := Values.encode (mergedQuery u resp.query) }
    ∧ (∀ k vs, (k, vs) ∈ resp.query →
        Values.getAll (mergedQuery u resp.query) k
          = Values.getAll (parseQuery u.rawQuery) k ++ [vs.headD ""])
    ∧ (∀ k, k ∉ resp.query.map Prod.fst →
        Values.getAll (mergedQuery u resp.query) k = Values.getAll (parseQuery u.rawQuery) k)
    ∧ (∀ k vs, (k, vs) ∈ resp.headers → k ≠ "Location" →
        Values.getAll (WriteAuthorizeResponse ar resp).headers k = vs) := by
  have hred : ar.getRedirectURI = u := by
    simp [AuthorizeRequest.getRedirectURI, hu]
  refine ⟨?_, ?_, ?_, ?_, ?_⟩
  · simp [WriteAuthorizeResponse]
  · simp only [WriteAuthorizeResponse, hred]
    exact get_set_self _ "Location" _
  · intro k vs hmem
    have hget : Values.get resp.query k = vs.headD "" := by
      unfold Values.get
      rw [getAll_eq_of_mem resp.query k vs hqnd hmem]
    have hfold := getAll_merge_mem resp.query (fun kv => Values.get resp.query kv.1)
      (parseQuery u.rawQuery) k vs hqnd hmem
    unfold mergedQuery
    rw [hfold]
    dsimp only
    rw [hget]
  · intro k hk
    exact getAll_merge_not_mem resp.query _ _ k hk
  · intro k vs hmem hne
    simp only [WriteAuthorizeResponse, hred]
    rw [getAll_set_ne _ k "Location" _ (fun hc => hne hc.symm)]
    rw [getAll_copyheaders_mem resp.headers [] k vs hhnd hmem]
    rfl

/-- A concrete validated request whose redirect URI already carries the
query `x=1`. -/
def arWrite : AuthorizeRequest :=
  { requestedAt := 0, redirectURI := some ⟨"https", "app.example", "/cb", "x=1", ""⟩ }

/-- A concrete accumulated response: repeated values under `k`, a second
query key, and one header with two values. -/
def respWrite : AuthorizeResponseData :=
  { query := [("k", ["a", "b"]), ("m", ["z"])], headers := [("X-Foo", ["1", "2"])] }

/-- Witness for the amended C7, at a redirect URI with an existing query
parameter and a response with repeated query values and headers. -/
theorem write_response_appends_first_value_per_key_witness :
    ((respWrite.query.map Prod.fst).Nodup ∧ (respWrite.headers.map Prod.fst).Nodup)
    ∧ ((WriteAuthorizeResponse arWrite respWrite).status = some 302
      ∧ Values.get (WriteAuthorizeResponse arWrite respWrite).headers "Location"
          = URL.render { scheme := "https", host := "app.example", path := "/cb", rawQuery := Values.encode (mergedQuery ⟨"https", "app.example", "/cb", "x=1", ""⟩ respWrite.query), fragment := "" }
      ∧ (∀ k vs, (k, vs) ∈ respWrite.query →
          Values.getAll (mergedQuery ⟨"https", "app.example", "/cb", "x=1", ""⟩ respWrite.query) k
            = Values.getAll (parseQuery "x=1") k ++ [vs.headD ""])
      ∧ (∀ k, k ∉ respWrite.query.map Prod.fst →
          Values.getAll (mergedQuery ⟨"https", "app.example", "/cb", "x=1", ""⟩ respWrite.query) k = Values.getAll (parseQuery "x=1") k)
      ∧ (∀ k vs, (k, vs) ∈ respWrite.headers → k ≠ "Location" →
          Values.getAll (WriteAuthorizeResponse arWrite respWrite).headers k = vs)) :=
  ⟨⟨by decide, by decide⟩,
    write_response_appends_first_value_per_key arWrite ⟨"https", "app.example", "/cb", "x=1", ""⟩ respWrite rfl (by decide) (by decide)⟩

/-- Claim C8: `WriteAuthorizeError` renders the RFC-mapped error as a
direct JSON body when the request's redirect URI was never established
as valid, and otherwise appends the error's wire identifier and
description as `error` and `error_description` query parameters on the
redirect URI and delivers them via a 302 redirect. -/
theorem write_error_paths (ar : AuthorizeRequest) (e : FErr) :
    (ar.redirectURI = none → WriteAuthorizeError ar e = .jsonBody (ErrorToRFC6749Error e))
    ∧ (∀ u, ar.redirectURI = some u →
        WriteAuthorizeError ar e = .redirect
          (URL.render { u with rawQuery := Values.encode (Values.add (Values.add (parseQuery u.rawQuery) "error" (ErrorToRFC6749Error e).name) "error_description" (ErrorToRFC6749Error e).description) }) 302)
    ∧ (∀ u, ar.redirectURI = some u →
        Values.getAll (Values.add (Values.add (parseQuery u.rawQuery) "error" (ErrorToRFC6749Error e).name)
            "error_description" (ErrorToRFC6749Error e).description) "error"
          = Values.getAll (parseQuery u.rawQuery) "error" ++ [(ErrorToRFC6749Error e).name])
    ∧ (∀ u, ar.redirectURI = some u →
        Values.getAll (Values.add (Values.add (parseQuery u.rawQuery) "error" (ErrorToRFC6749Error e).name)
            "error_description" (ErrorToRFC6749Error e).description) "error_description"
          = Values.getAll (parseQuery u.rawQuery) "error_description" ++ [(ErrorToRFC6749Error e).description]) := by
  refine ⟨?_, ?_, ?_, ?_⟩
  · intro hnone
    simp [WriteAuthorizeError, AuthorizeRequest.isRedirectURIValid, hnone]
  · intro u hu
    simp [WriteAuthorizeError, AuthorizeRequest.isRedirectURIValid, AuthorizeRequest.getRedirectURI, hu]
  · intro u hu
    rw [getAll_add_ne _ "error" "error_description" _ (by decide)]
    exact getAll_add_self _ "error" _
  · intro u hu
    rw [getAll_add_self _ "error_description" _]
    rw [getAll_add_ne _ "error_description" "error" _ (by decide)]

/-- Witness for C8: a request without a resolved redirect URI gets the
JSON body; a request with one gets the 302 redirect carrying `error` and
`error_description`. -/
theorem write_error_paths_witness :
    WriteAuthorizeError { requestedAt := 0 } .invalidState = .jsonBody (ErrorToRFC6749Error .invalidState)
    ∧ WriteAuthorizeError { requestedAt := 0, redirectURI := some ⟨"https", "app.example", "/cb", "", ""⟩ } .invalidState
        = .redirect "https://app.example/cb?error=invalid_state&error_description=The state is missing or too short" 302 :=
  ⟨(write_error_paths { requestedAt := 0 } .invalidState).1 rfl,
    by
      rw [(write_error_paths { requestedAt := 0, redirectURI := some ⟨"https", "app.example", "/cb", "", ""⟩ } .invalidState).2.1
        ⟨"https", "app.example", "/cb", "", ""⟩ rfl]
      decide⟩
